import Mathlib

set_option maxHeartbeats 4000000

/-!
Verification of the siRNA candidate design pipeline in
`src/pax8_sirna_design.py` (scoring, local off-target screening, candidate
generation, filtering and ranking).  Sequences are embedded as `List Char`,
the scores as `ℕ`, and the GC percentages as `ℚ` (the Python float
comparisons here are exact: every GC value is a multiple of `100/19`, far
from every comparison threshold, so rational arithmetic agrees).
-/

namespace Pax8

/-- The string constant `"PASS"` used for verdict fields. -/
def PASS : String := "PASS"

/-- The string constant `"FAIL"` used for verdict fields. -/
def FAIL : String := "FAIL"

/-- The string constant `"UNKNOWN"` used for the remote verdict field. -/
def UNKNOWN : String := "UNKNOWN"

/-- `calculate_gc_content`: GC percentage of a sequence,
`(count of G + count of C) / length * 100` after upper-casing. -/
def calculate_gc_content (sequence : List Char) : ℚ :=
  ((((sequence.map Char.toUpper).count 'G' + (sequence.map Char.toUpper).count 'C' : ℕ) : ℚ)
      / ((sequence.length : ℕ) : ℚ)) * 100

/-- Does `p` occur at the head of `s`?  (Models Python prefix testing used by
the `in` substring operator.) -/
def startsList : List Char → List Char → Bool
  | [], _ => true
  | _ :: _, [] => false
  | a :: p, b :: s => a == b && startsList p s

/-- Does `p` occur as a contiguous substring of the second list?
(Models Python `p in s` on strings.) -/
def hasSubstr (p : List Char) : List Char → Bool
  | [] => startsList p []
  | b :: t => startsList p (b :: t) || hasSubstr p t

/-- `sense_seq.upper().replace('T', 'U')`: the RNA form of the sense strand. -/
def toRNA (sense : List Char) : List Char :=
  (sense.map Char.toUpper).map (fun c => if c = 'T' then 'U' else c)

/-- Scoring rule 1: GC content 30-50% gives 2 points, near-optimal 1 point.
Returns the awarded points together with the detail entries appended. -/
def gcRule (sense : List Char) : ℕ × List (String × ℕ) :=
  let gc := calculate_gc_content sense
  if 30 ≤ gc ∧ gc ≤ 50 then (2, [("GC 30-50%: +2", 2)])
  else if (25 ≤ gc ∧ gc < 30) ∨ (50 < gc ∧ gc ≤ 55) then (1, [("GC near optimal: +1", 1)])
  else (0, [])

/-- Scoring rule 2: position 1 of the RNA-form sense strand is A or U.
(The source indexes `seq[0]`; the default only pads sequences shorter than
the index, which never occur at call sites.) -/
def pos1Rule (seq : List Char) : ℕ × List (String × ℕ) :=
  if seq.getD 0 ' ' ∈ (['A', 'U'] : List Char) then (1, [("Pos1 A/U: +1", 1)]) else (0, [])

/-- Scoring rule 3: position 19 (`seq[18]`) is G or C. -/
def pos19Rule (seq : List Char) : ℕ × List (String × ℕ) :=
  if seq.getD 18 ' ' ∈ (['G', 'C'] : List Char) then (1, [("Pos19 G/C: +1", 1)]) else (0, [])

/-- Scoring rule 4: A/U count among `seq[14:19]` scores 2 if at least 4,
else 1 if at least 3. -/
def au3Rule (seq : List Char) : ℕ × List (String × ℕ) :=
  let n := ((seq.drop 14).take 5).countP (fun b => b == 'A' || b == 'U')
  if 4 ≤ n then (2, [("3\x27 A/U rich: +2", 2)])
  else if 3 ≤ n then (1, [("3\x27 A/U moderate: +1", 1)])
  else (0, [])

/-- Scoring rule 5: one point if no 4-fold repeat of any of A, U, G, C, T
occurs in the upper-cased sense strand. -/
def polyRule (sense : List Char) : ℕ × List (String × ℕ) :=
  let u := sense.map Char.toUpper
  let has_poly_run :=
    (['A', 'U', 'G', 'C', 'T'] : List Char).any (fun base => hasSubstr [base, base, base, base] u)
  if has_poly_run then (0, []) else (1, [("No poly-runs: +1", 1)])

/-- Scoring rule 6: A/U count among `seq[0:7]` scores 2 if at least 5,
else 1 if at least 4. -/
def au5Rule (seq : List Char) : ℕ × List (String × ℕ) :=
  let n := (seq.take 7).countP (fun b => b == 'A' || b == 'U')
  if 5 ≤ n then (2, [("5\x27 A/U rich: +2", 2)])
  else if 4 ≤ n then (1, [("5\x27 A/U moderate: +1", 1)])
  else (0, [])

/-- Scoring rule 7: one point if the G/C count among `seq[15:19]` is at most 2. -/
def gc3Rule (seq : List Char) : ℕ × List (String × ℕ) :=
  let n := ((seq.drop 15).take 4).countP (fun b => b == 'G' || b == 'C')
  if n ≤ 2 then (1, [("No 3\x27 GC stretch: +1", 1)])
  else (0, [])

/-- `score_sirna`: total score and detail list of an siRNA candidate.
The source accumulates `score += k; details.append(...)` over seven
independent rules; here each rule contributes a pair and the results are
summed and concatenated in the same order. -/
def score_sirna (sense : List Char) : ℕ × List (String × ℕ) :=
  let seq := toRNA sense
  let r1 := gcRule sense
  let r2 := pos1Rule seq
  let r3 := pos19Rule seq
  let r4 := au3Rule seq
  let r5 := polyRule sense
  let r6 := au5Rule seq
  let r7 := gc3Rule seq
  (r1.1 + r2.1 + r3.1 + r4.1 + r5.1 + r6.1 + r7.1,
   r1.2 ++ r2.2 ++ r3.2 ++ r4.2 ++ r5.2 ++ r6.2 ++ r7.2)

/-- Position-wise match count of two windows after upper-casing
(`sum(1 for a, b in zip(sense.upper(), window.upper()) if a == b)`). -/
def matchCount (sense window : List Char) : ℕ :=
  ((sense.map Char.toUpper).zip (window.map Char.toUpper)).countP (fun p => p.1 == p.2)

/-- `check_off_targets_local`: `True` (PASS) iff at most one window of the
source sequence matches the candidate in at least 16 positions. -/
def check_off_targets_local (sense pax8_cds : List Char) : Bool :=
  let numMatches := (List.range (pax8_cds.length - 18)).countP
    (fun i => decide (16 ≤ matchCount sense ((pax8_cds.drop i).take 19)))
  numMatches ≤ 1

/-- Complement of one nucleotide letter; models `Bio.Seq.complement` on the
A/C/G/T letters (either case), the only letters that reach it here. -/
def complementChar (c : Char) : Char :=
  if c = 'A' then 'T' else if c = 'T' then 'A'
  else if c = 'G' then 'C' else if c = 'C' then 'G'
  else if c = 'a' then 't' else if c = 't' then 'a'
  else if c = 'g' then 'c' else if c = 'c' then 'g'
  else c

/-- `str(Seq(sense_seq).reverse_complement())`. -/
def reverse_complement (s : List Char) : List Char :=
  (s.map complementChar).reverse

/-- Models Python `round(x, 1)`.  (Python rounds half to even, but the
GC values rounded here are multiples of `100/19`, never at a half-way
point, so round-half-up agrees.) -/
def round1 (q : ℚ) : ℚ := ((⌊q * 10 + 1 / 2⌋ : ℤ) : ℚ) / 10

/-- One candidate record, mirroring the candidate dict built by
`generate_sirna_candidates`. -/
structure Candidate where
  position : ℕ
  sense_seq : List Char
  antisense_seq : List Char
  gc_percent : ℚ
  score : ℕ
  score_details : List (String × ℕ)
  local_check : String
deriving DecidableEq, Repr

/-- The candidate built from window start `i` (0-based). -/
def mkCandidate (cds : List Char) (i : ℕ) : Candidate :=
  let sense := (cds.drop i).take 19
  { position := i + 1
    sense_seq := sense
    antisense_seq := reverse_complement sense
    gc_percent := round1 (calculate_gc_content sense)
    score := (score_sirna sense).1
    score_details := (score_sirna sense).2
    local_check := if check_off_targets_local sense cds then PASS else FAIL }

/-- A window is valid when no (upper-cased) symbol falls outside ATGC;
invalid windows are skipped by the generator. -/
def validWindow (cds : List Char) (i : ℕ) : Bool :=
  !(((cds.drop i).take 19).any (fun b => !((['A', 'T', 'G', 'C'] : List Char).contains b.toUpper)))

/-- The candidate list built by the sliding-window loop of
`generate_sirna_candidates`, in position order, before any sorting. -/
def genCandidates (cds : List Char) : List Candidate :=
  (List.range (cds.length - 18)).filterMap
    (fun i => if validWindow cds i then some (mkCandidate cds i) else none)

/-- `|gc_percent - 40|`, the sort tie-breaker used by the generator. -/
def gcDist (c : Candidate) : ℚ := |c.gc_percent - 40|

/-- The comparison realising Python's ascending sort by the key
`(-score, abs(gc_percent - 40))`. -/
def sirnaLe (a b : Candidate) : Bool :=
  decide (b.score < a.score ∨ (a.score = b.score ∧ gcDist a ≤ gcDist b))

/-- Insert `a` after every already-placed element that compares `le` to it;
the insertion step of a stable sort. -/
def insertStable {α : Type} (le : α → α → Bool) (a : α) : List α → List α
  | [] => [a]
  | b :: t => if le b a then b :: insertStable le a t else a :: b :: t

/-- Models Python `list.sort(key=...)`: a stable ascending sort.  The stably
sorted permutation of a list is unique, so this insertion sort produces
exactly the list Python's timsort produces. -/
def pySort {α : Type} (le : α → α → Bool) (l : List α) : List α :=
  l.foldl (fun acc x => insertStable le x acc) []

/-- `generate_sirna_candidates`: builds all candidates, sorts them by
`(-score, abs(gc_percent - 40))` and returns the best `top_n`.  The source
then prints `candidates[0]['score']`, which raises `IndexError` when no
candidate exists; that partiality is modelled by `Option`. -/
def generate_sirna_candidates (cds : List Char) (top_n : ℕ) : Option (List Candidate) :=
  let candidates := pySort sirnaLe (genCandidates cds)
  match candidates with
  | [] => none
  | _ :: _ => some (candidates.take top_n)

/-- One BLAST high-scoring pair, as consumed by `run_blast_check`. -/
structure Hsp where
  identities : ℕ
  align_length : ℕ
deriving DecidableEq, Repr

/-- One BLAST alignment: a title and its high-scoring pairs. -/
structure Alignment where
  title : String
  hsps : List Hsp
deriving DecidableEq, Repr

/-- The remote NCBI BLAST service, abstracted: it yields the alignments of
the (single) record parsed from the reply, or the message of the exception
raised by the transport. -/
def Oracle : Type := List Char → Except String (List Alignment)

/-- `run_blast_check`: skipped runs report PASS; otherwise the remote hits
are scanned for non-PAX8 alignments with at least 16 identities over at
least 17 aligned bases, and any exception degrades to UNKNOWN. -/
def run_blast_check (qblast : Oracle) (sense : List Char) (skip_blast : Bool) : String × String :=
  if skip_blast then (PASS, "Skipped (use --blast for full analysis)")
  else
    match qblast sense with
    | Except.error e => (UNKNOWN, "BLAST error: " ++ e)
    | Except.ok alignments =>
      let off_target_hits := alignments.foldr (fun al acc =>
        if hasSubstr ("PAX8".toList) (al.title.toList.map Char.toUpper) then acc
        else (al.hsps.filter (fun h => decide (16 ≤ h.identities ∧ 17 ≤ h.align_length))) ++ acc) []
      if off_target_hits.isEmpty then (PASS, "No significant off-targets")
      else (FAIL, toString off_target_hits.length ++ " off-targets found")

/-- A candidate promoted to the shortlist, with the fields the filtering
stage adds to the candidate dict. -/
structure Ranked where
  cand : Candidate
  off_target : String
  blast_note : String
  rank : ℕ
deriving DecidableEq, Repr

/-- The per-candidate body of the filtering loop: `none` when the candidate
is discarded (failed local check, GC outside 25-55, or remote FAIL),
otherwise the candidate with its off-target verdict and note. -/
def surviveStep (run_blast : Bool) (qblast : Oracle) (cand : Candidate) :
    Option (Candidate × String × String) :=
  if cand.local_check = FAIL then none
  else if cand.gc_percent < 25 ∨ 55 < cand.gc_percent then none
  else
    let ob := if run_blast then run_blast_check qblast cand.sense_seq false
              else (PASS, "Local check only")
    if ob.1 ≠ FAIL then some (cand, ob.1, ob.2) else none

/-- `filter_and_rank_candidates`: filter, assign dense 1-based ranks in the
surviving order, and return the top 10. -/
def filter_and_rank_candidates (run_blast : Bool) (qblast : Oracle)
    (candidates : List Candidate) : List Ranked :=
  (((candidates.filterMap (surviveStep run_blast qblast)).enum).map (fun p =>
    { cand := p.2.1, off_target := p.2.2.1, blast_note := p.2.2.2, rank := p.1 + 1 })).take 10

/-! ### Specification-side definitions, phrased from the claims -/

/-- Is the symbol G or C? -/
def isGC (b : Char) : Bool := b == 'G' || b == 'C'

/-- Is the symbol A or T? -/
def isAT (b : Char) : Bool := b == 'A' || b == 'T'

/-- GC fraction of a 19-symbol window: G/C count divided by the width. -/
def specGcFrac (s : List Char) : ℚ := ((s.countP isGC : ℕ) : ℚ) / 19

/-- Claim rule 1: GC fraction in [30%, 50%] awards 2, in [25%, 30%) or
(50%, 55%] awards 1. -/
def specGCPoints (s : List Char) : ℕ :=
  if 3 / 10 ≤ specGcFrac s ∧ specGcFrac s ≤ 1 / 2 then 2
  else if (1 / 4 ≤ specGcFrac s ∧ specGcFrac s < 3 / 10) ∨
      (1 / 2 < specGcFrac s ∧ specGcFrac s ≤ 11 / 20) then 1
  else 0

/-- Claim rule 2: first base A/T awards 1. -/
def specFirstPoints (s : List Char) : ℕ := if isAT (s.getD 0 ' ') then 1 else 0

/-- Claim rule 3: last base (position 19) G/C awards 1. -/
def specLastPoints (s : List Char) : ℕ := if isGC (s.getD 18 ' ') then 1 else 0

/-- Claim rule 4: A/T count among positions 15-19 awards 2 if at least 4,
1 if exactly 3. -/
def specTailATPoints (s : List Char) : ℕ :=
  let n := ((s.drop 14).take 5).countP isAT
  if 4 ≤ n then 2 else if n = 3 then 1 else 0

/-- Does the list contain a run of at least 4 identical consecutive symbols? -/
def hasRun4 : List Char → Bool
  | a :: b :: c :: d :: t => (a == b && (b == c && c == d)) || hasRun4 (b :: c :: d :: t)
  | _ => false

/-- Claim rule 5: 1 point when there is no run of 4 or more identical
consecutive symbols. -/
def specRunPoints (s : List Char) : ℕ := if hasRun4 s then 0 else 1

/-- Claim rule 6: A/T count among positions 1-7 awards 2 if at least 5,
1 if exactly 4. -/
def specHeadATPoints (s : List Char) : ℕ :=
  let n := (s.take 7).countP isAT
  if 5 ≤ n then 2 else if n = 4 then 1 else 0

/-- Claim rule 7: at most 2 G/C among positions 16-19 awards 1. -/
def specTailGCPoints (s : List Char) : ℕ :=
  let n := ((s.drop 15).take 4).countP isGC
  if n ≤ 2 then 1 else 0

/-- The sum of the seven rule contributions of the reference rule set. -/
def specScore (s : List Char) : ℕ :=
  specGCPoints s + specFirstPoints s + specLastPoints s + specTailATPoints s +
    specRunPoints s + specHeadATPoints s + specTailGCPoints s

/-- The start positions of the source whose same-width window matches the
candidate in at least 16 of 19 positions (claim C3). -/
def specSimilarSpots (sense src : List Char) : Finset ℕ :=
  (Finset.range src.length).filter
    (fun i => i + 19 ≤ src.length ∧ 16 ≤ matchCount sense ((src.drop i).take 19))

/-- The complement map of the claim: A maps to T, T to A, G to C, C to G. -/
def specComplement (c : Char) : Char :=
  if c = 'A' then 'T' else if c = 'T' then 'A'
  else if c = 'G' then 'C' else if c = 'C' then 'G' else c

/-- The exact reverse complement of the claim: complement each symbol of the
reversed window. -/
def revCompSpec (s : List Char) : List Char := s.reverse.map specComplement

/-- `gcFraction` of a candidate per the data model: G/C count of the sense
window divided by the width W = 19 (counted case-insensitively, as the
source counts on the upper-cased window). -/
def gcFraction (c : Candidate) : ℚ := ((c.sense_seq.countP (fun b => isGC b.toUpper) : ℕ) : ℚ) / 19

/-- Distance of a candidate's GC fraction from the design target 0.40. -/
def gcTarget (c : Candidate) : ℚ := |gcFraction c - 2 / 5|

/-- The shortlist order stated by claim C4: higher score first, ties broken
by GC fraction closer to 0.40, remaining ties by generation position. -/
def rankedBefore (a b : Candidate) : Prop :=
  b.score < a.score
  ∨ (a.score = b.score ∧ gcTarget a < gcTarget b)
  ∨ (a.score = b.score ∧ gcTarget a = gcTarget b ∧ a.position < b.position)

/-! ### Concrete inputs used by witnesses and counterexamples -/

/-- A 19 bp source over {A,C,G,T}: exactly one window, which passes every
filter (GC 47.4%, local check PASS). -/
def demoCds : List Char := ("ATGCATGCATGCATGCATG").toList

/-- The single (sorted, capped) candidate list generated from `demoCds`. -/
def demoOut : List Candidate := (pySort sirnaLe (genCandidates demoCds)).take 50

/-- An oracle modelling a transport failure on every remote call. -/
def demoOracle : Oracle := fun _ => Except.error "transport failure"

/-- A 20 bp source whose second window outscores its first: the generator
returns the two candidates in the order [2, 1], not in position order. -/
def cex2 : List Char := ("AAAACTCATCCTGTTCGACA").toList

/-- An 88 bp source: a 19-mer motif repeated 4 times (those 58+ windows all
fail the local-redundancy check but sort first) followed by a distinct tail
whose single surviving window sorts at position 54, beyond the top-50 cap.
The capped pipeline returns an empty shortlist, the uncapped one does not. -/
def cex6 : List Char :=
  ("GATGAAATTCAGCGTTCTCGATGAAATTCAGCGTTCTCGATGAAATTCAGCGTTCTCGATGAAATTCAGCGTTCTCCGTCAGCTACCA").toList

/-- A default `Ranked` value used only as the fallback of `List.headD`. -/
def defaultRanked : Ranked :=
  { cand := mkCandidate demoCds 0, off_target := PASS, blast_note := "", rank := 1 }

/-- The shortlist of the demo run (remote check disabled). -/
def demoShort : List Ranked := filter_and_rank_candidates false demoOracle demoOut

/-- The single candidate of the demo run. -/
def demoCand : Candidate := mkCandidate demoCds 0

/-! ### Generic list lemmas -/

theorem filterMap_if_eq_map_filter {α β : Type} (p : α → Bool) (g : α → β) :
    ∀ l : List α, l.filterMap (fun x => if p x then some (g x) else none) = (l.filter p).map g
  | [] => rfl
  | a :: l => by
    by_cases h : p a <;>
      simp [List.filterMap_cons, List.filter_cons, h, filterMap_if_eq_map_filter p g l]

theorem countP_disjoint {α : Type} (p q : α → Bool) (h : ∀ a, ¬(p a = true ∧ q a = true)) :
    ∀ l : List α, l.countP p + l.countP q = l.countP (fun a => p a || q a)
  | [] => rfl
  | a :: l => by
    have hl := countP_disjoint p q h l
    rcases hp : p a with _ | _ <;> rcases hq : q a with _ | _
    · simp [List.countP_cons, hp, hq, hl]
    · simp [List.countP_cons, hp, hq]; omega
    · simp [List.countP_cons, hp, hq]; omega
    · exact absurd ⟨hp, hq⟩ (h a)

theorem two_le_countP_range (p : ℕ → Bool) (i j : ℕ) (hij : i < j) (hi : p i = true)
    (hpj : p j = true) : ∀ n : ℕ, j < n → 2 ≤ (List.range n).countP p := by
  intro n
  induction n with
  | zero => omega
  | succ n ih =>
    intro hj
    rw [List.range_succ, List.countP_append]
    rcases Nat.lt_or_ge j n with h | h
    · have := ih h; omega
    · have hjn : j = n := by omega
      have h1 : 0 < (List.range n).countP p :=
        List.countP_pos_iff.mpr ⟨i, List.mem_range.mpr (by omega), hi⟩
      have h2 : (List.countP p [n]) = 1 := by simp [List.countP_cons, hjn ▸ hpj]
      omega

theorem countP_zip_self {α : Type} [BEq α] [LawfulBEq α] :
    ∀ l : List α, (l.zip l).countP (fun p => p.1 == p.2) = l.length
  | [] => rfl
  | a :: l => by simp [List.zip_cons_cons, List.countP_cons, countP_zip_self l]

/-! ### Character lemmas -/

theorem toUpper_eq_self {c : Char} (h : c ∈ (['A', 'C', 'G', 'T'] : List Char)) :
    c.toUpper = c := by
  simp only [List.mem_cons, List.mem_singleton, List.not_mem_nil, or_false] at h
  rcases h with rfl | rfl | rfl | rfl <;> decide

theorem map_toUpper_eq_self {s : List Char} (h : ∀ c ∈ s, c ∈ (['A', 'C', 'G', 'T'] : List Char)) :
    s.map Char.toUpper = s := by
  have := List.map_congr_left (fun c hc => toUpper_eq_self (h c hc))
  simpa using this

theorem getD_map_of_lt {α β : Type} (f : α → β) (d : β) (d' : α) :
    ∀ (l : List α) (n : ℕ), n < l.length → (l.map f).getD n d = f (l.getD n d')
  | a :: l, 0, _ => rfl
  | a :: l, n + 1, h => by
    simpa [List.getD_cons_succ] using getD_map_of_lt f d d' l n (by simpa using h)
  | [], n, h => absurd h (by simp)

theorem getD_mem_of_lt {α : Type} (d : α) :
    ∀ (l : List α) (n : ℕ), n < l.length → l.getD n d ∈ l
  | a :: l, 0, _ => by simp
  | a :: l, n + 1, h => by
    simpa [List.getD_cons_succ] using List.mem_cons_of_mem a (getD_mem_of_lt d l n (by simpa using h))
  | [], n, h => absurd h (by simp)

/-! ### The scorer agrees with the seven-rule reference set (claim C1) -/

theorem count_GC_eq_countP (l : List Char) :
    l.count 'G' + l.count 'C' = l.countP isGC := by
  have hd : ∀ a : Char, ¬((a == 'G') = true ∧ (a == 'C') = true) := by
    intro a h
    rcases h with ⟨h1, h2⟩
    rw [beq_iff_eq] at h1 h2
    exact absurd (h1 ▸ h2) (by decide)
  simpa [List.count, isGC] using countP_disjoint (fun b => b == 'G') (fun b => b == 'C') hd l

theorem calculate_gc_content_eq {s : List Char} (hlen : s.length = 19)
    (h : ∀ c ∈ s, c ∈ (['A', 'C', 'G', 'T'] : List Char)) :
    calculate_gc_content s = ((s.countP isGC : ℕ) : ℚ) / 19 * 100 := by
  unfold calculate_gc_content
  simp only [map_toUpper_eq_self h, hlen, count_GC_eq_countP]
  norm_num

theorem gcRule_eq_spec {s : List Char} (hlen : s.length = 19)
    (h : ∀ c ∈ s, c ∈ (['A', 'C', 'G', 'T'] : List Char)) :
    (gcRule s).1 = specGCPoints s := by
  obtain ⟨n, hn19, hne⟩ : ∃ n, n ≤ 19 ∧ s.countP isGC = n :=
    ⟨_, hlen ▸ List.countP_le_length _, rfl⟩
  simp only [gcRule, specGCPoints, specGcFrac, calculate_gc_content_eq hlen h, hne]
  interval_cases n <;> norm_num

theorem toRNA_eq_of_upper {s : List Char} (h : ∀ c ∈ s, c ∈ (['A', 'C', 'G', 'T'] : List Char)) :
    toRNA s = s.map (fun c => if c = 'T' then 'U' else c) := by
  unfold toRNA
  rw [map_toUpper_eq_self h]

theorem pos1Rule_eq_spec {s : List Char} (hlen : s.length = 19)
    (h : ∀ c ∈ s, c ∈ (['A', 'C', 'G', 'T'] : List Char)) :
    (pos1Rule (toRNA s)).1 = specFirstPoints s := by
  rw [toRNA_eq_of_upper h]
  rcases s with _ | ⟨a, t⟩
  · simp at hlen
  · have ha := h a (by simp)
    simp only [List.mem_cons, List.mem_singleton, List.not_mem_nil, or_false] at ha
    unfold pos1Rule specFirstPoints
    simp only [List.map_cons, List.getD_cons_zero]
    rcases ha with rfl | rfl | rfl | rfl <;> rfl

theorem pos19Rule_eq_spec {s : List Char} (hlen : s.length = 19)
    (h : ∀ c ∈ s, c ∈ (['A', 'C', 'G', 'T'] : List Char)) :
    (pos19Rule (toRNA s)).1 = specLastPoints s := by
  have h18 : (18 : ℕ) < s.length := by omega
  rw [toRNA_eq_of_upper h]
  unfold pos19Rule specLastPoints
  rw [getD_map_of_lt _ _ ' ' s 18 h18]
  have hc := h _ (getD_mem_of_lt ' ' s 18 h18)
  simp only [List.mem_cons, List.mem_singleton, List.not_mem_nil, or_false] at hc
  rcases hc with hc | hc | hc | hc <;> rw [hc] <;> rfl

theorem countP_ru_AT {x : List Char} {s : List Char}
    (hsub : ∀ c ∈ x, c ∈ s) (h : ∀ c ∈ s, c ∈ (['A', 'C', 'G', 'T'] : List Char)) :
    (x.map (fun c => if c = 'T' then 'U' else c)).countP (fun b => b == 'A' || b == 'U')
      = x.countP isAT := by
  rw [List.countP_map]
  refine List.countP_congr (fun b hb => ?_)
  have hc := h b (hsub b hb)
  simp only [List.mem_cons, List.mem_singleton, List.not_mem_nil, or_false] at hc
  rcases hc with rfl | rfl | rfl | rfl <;> decide

theorem countP_ru_GC {x : List Char} {s : List Char}
    (hsub : ∀ c ∈ x, c ∈ s) (h : ∀ c ∈ s, c ∈ (['A', 'C', 'G', 'T'] : List Char)) :
    (x.map (fun c => if c = 'T' then 'U' else c)).countP (fun b => b == 'G' || b == 'C')
      = x.countP isGC := by
  rw [List.countP_map]
  refine List.countP_congr (fun b hb => ?_)
  have hc := h b (hsub b hb)
  simp only [List.mem_cons, List.mem_singleton, List.not_mem_nil, or_false] at hc
  rcases hc with rfl | rfl | rfl | rfl <;> decide

theorem au3Rule_eq_spec {s : List Char}
    (h : ∀ c ∈ s, c ∈ (['A', 'C', 'G', 'T'] : List Char)) :
    (au3Rule (toRNA s)).1 = specTailATPoints s := by
  rw [toRNA_eq_of_upper h]
  unfold au3Rule specTailATPoints
  rw [← List.map_drop, ← List.map_take,
    countP_ru_AT (fun c hc => List.mem_of_mem_drop (List.mem_of_mem_take hc)) h]
  simp only [apply_ite Prod.fst]
  split_ifs <;> omega

theorem au5Rule_eq_spec {s : List Char}
    (h : ∀ c ∈ s, c ∈ (['A', 'C', 'G', 'T'] : List Char)) :
    (au5Rule (toRNA s)).1 = specHeadATPoints s := by
  rw [toRNA_eq_of_upper h]
  unfold au5Rule specHeadATPoints
  rw [← List.map_take, countP_ru_AT (fun c hc => List.mem_of_mem_take hc) h]
  simp only [apply_ite Prod.fst]
  split_ifs <;> omega

theorem gc3Rule_eq_spec {s : List Char}
    (h : ∀ c ∈ s, c ∈ (['A', 'C', 'G', 'T'] : List Char)) :
    (gc3Rule (toRNA s)).1 = specTailGCPoints s := by
  rw [toRNA_eq_of_upper h]
  unfold gc3Rule specTailGCPoints
  rw [← List.map_drop, ← List.map_take,
    countP_ru_GC (fun c hc => List.mem_of_mem_drop (List.mem_of_mem_take hc)) h]
  simp only [apply_ite Prod.fst]

theorem startsList_quad (x a b c d : Char) (t : List Char) :
    startsList [x, x, x, x] (a :: b :: c :: d :: t)
      = (x == a && (x == b && (x == c && x == d))) := by
  simp [startsList]

theorem any_or_distrib {α : Type} (p q : α → Bool) :
    ∀ l : List α, l.any (fun x => p x || q x) = (l.any p || l.any q)
  | [] => rfl
  | a :: l => by
    simp only [List.any_cons, any_or_distrib p q l]
    cases p a <;> cases q a <;> simp

theorem any5_quad_head {a b c d : Char}
    (ha : a ∈ (['A', 'C', 'G', 'T'] : List Char)) (hb : b ∈ (['A', 'C', 'G', 'T'] : List Char))
    (hc : c ∈ (['A', 'C', 'G', 'T'] : List Char)) (hd : d ∈ (['A', 'C', 'G', 'T'] : List Char)) :
    ((['A', 'U', 'G', 'C', 'T'] : List Char).any
      (fun x => x == a && (x == b && (x == c && x == d)))) = (a == b && (b == c && c == d)) := by
  simp only [List.mem_cons, List.mem_singleton, List.not_mem_nil, or_false] at ha hb hc hd
  rcases ha with rfl | rfl | rfl | rfl <;> rcases hb with rfl | rfl | rfl | rfl <;>
    rcases hc with rfl | rfl | rfl | rfl <;> rcases hd with rfl | rfl | rfl | rfl <;> rfl

theorem any_quad_eq_hasRun4 :
    ∀ s : List Char, (∀ c ∈ s, c ∈ (['A', 'C', 'G', 'T'] : List Char)) →
      ((['A', 'U', 'G', 'C', 'T'] : List Char).any (fun x => hasSubstr [x, x, x, x] s))
        = hasRun4 s
  | [], _ => rfl
  | [a], _ => by simp [hasSubstr, startsList, hasRun4]
  | [a, b], _ => by simp [hasSubstr, startsList, hasRun4]
  | [a, b, c], _ => by simp [hasSubstr, startsList, hasRun4]
  | a :: b :: c :: d :: t, h => by
    have ih := any_quad_eq_hasRun4 (b :: c :: d :: t)
      (fun x hx => h x (List.mem_cons_of_mem a hx))
    have ha := h a (by simp)
    have hb := h b (by simp)
    have hc := h c (by simp)
    have hd := h d (by simp)
    have estep : ∀ x : Char, hasSubstr [x, x, x, x] (a :: b :: c :: d :: t)
        = ((x == a && (x == b && (x == c && x == d)))
            || hasSubstr [x, x, x, x] (b :: c :: d :: t)) := by
      intro x
      rw [show hasSubstr [x, x, x, x] (a :: b :: c :: d :: t)
          = (startsList [x, x, x, x] (a :: b :: c :: d :: t)
              || hasSubstr [x, x, x, x] (b :: c :: d :: t)) from rfl, startsList_quad]
    calc ((['A', 'U', 'G', 'C', 'T'] : List Char).any
          (fun x => hasSubstr [x, x, x, x] (a :: b :: c :: d :: t)))
        = ((['A', 'U', 'G', 'C', 'T'] : List Char).any
            (fun x => (x == a && (x == b && (x == c && x == d)))
              || hasSubstr [x, x, x, x] (b :: c :: d :: t))) := by simp only [estep]
      _ = (((['A', 'U', 'G', 'C', 'T'] : List Char).any
              (fun x => x == a && (x == b && (x == c && x == d))))
            || ((['A', 'U', 'G', 'C', 'T'] : List Char).any
              (fun x => hasSubstr [x, x, x, x] (b :: c :: d :: t)))) :=
        any_or_distrib _ _ _
      _ = ((a == b && (b == c && c == d)) || hasRun4 (b :: c :: d :: t)) := by
        rw [any5_quad_head ha hb hc hd, ih]
      _ = hasRun4 (a :: b :: c :: d :: t) := rfl

theorem polyRule_eq_spec {s : List Char}
    (h : ∀ c ∈ s, c ∈ (['A', 'C', 'G', 'T'] : List Char)) :
    (polyRule s).1 = specRunPoints s := by
  unfold polyRule specRunPoints
  simp only [map_toUpper_eq_self h, any_quad_eq_hasRun4 s h, apply_ite Prod.fst]

theorem gcRule_parts (s : List Char) :
    (((gcRule s).2).map Prod.snd).sum = (gcRule s).1 ∧ (gcRule s).1 ≤ 2 := by
  simp only [gcRule]
  split_ifs <;> simp

theorem pos1Rule_parts (x : List Char) :
    (((pos1Rule x).2).map Prod.snd).sum = (pos1Rule x).1 ∧ (pos1Rule x).1 ≤ 1 := by
  simp only [pos1Rule]
  split_ifs <;> simp

theorem pos19Rule_parts (x : List Char) :
    (((pos19Rule x).2).map Prod.snd).sum = (pos19Rule x).1 ∧ (pos19Rule x).1 ≤ 1 := by
  simp only [pos19Rule]
  split_ifs <;> simp

theorem au3Rule_parts (x : List Char) :
    (((au3Rule x).2).map Prod.snd).sum = (au3Rule x).1 ∧ (au3Rule x).1 ≤ 2 := by
  simp only [au3Rule]
  split_ifs <;> simp

theorem polyRule_parts (x : List Char) :
    (((polyRule x).2).map Prod.snd).sum = (polyRule x).1 ∧ (polyRule x).1 ≤ 1 := by
  simp only [polyRule]
  split_ifs <;> simp

theorem au5Rule_parts (x : List Char) :
    (((au5Rule x).2).map Prod.snd).sum = (au5Rule x).1 ∧ (au5Rule x).1 ≤ 2 := by
  simp only [au5Rule]
  split_ifs <;> simp

theorem gc3Rule_parts (x : List Char) :
    (((gc3Rule x).2).map Prod.snd).sum = (gc3Rule x).1 ∧ (gc3Rule x).1 ≤ 1 := by
  simp only [gc3Rule]
  split_ifs <;> simp

/-- Claim C1: for every 19-symbol window over {A,C,G,T}, the scorer returns
a score in [0,10] (scores are naturals, so 0 is a lower bound by type)
equal to the sum of the seven rule contributions of the reference rule set,
and the points listed in the score breakdown sum to the score. -/
theorem C1_scorer_correct {s : List Char} (hlen : s.length = 19)
    (hACGT : ∀ c ∈ s, c ∈ (['A', 'C', 'G', 'T'] : List Char)) :
    (score_sirna s).1 ≤ 10 ∧ (score_sirna s).1 = specScore s ∧
      (((score_sirna s).2).map Prod.snd).sum = (score_sirna s).1 := by
  have hs : (score_sirna s).1
      = (gcRule s).1 + (pos1Rule (toRNA s)).1 + (pos19Rule (toRNA s)).1
        + (au3Rule (toRNA s)).1 + (polyRule s).1 + (au5Rule (toRNA s)).1
        + (gc3Rule (toRNA s)).1 := rfl
  have hd : (score_sirna s).2
      = (gcRule s).2 ++ (pos1Rule (toRNA s)).2 ++ (pos19Rule (toRNA s)).2
        ++ (au3Rule (toRNA s)).2 ++ (polyRule s).2 ++ (au5Rule (toRNA s)).2
        ++ (gc3Rule (toRNA s)).2 := rfl
  obtain ⟨e1, b1⟩ := gcRule_parts s
  obtain ⟨e2, b2⟩ := pos1Rule_parts (toRNA s)
  obtain ⟨e3, b3⟩ := pos19Rule_parts (toRNA s)
  obtain ⟨e4, b4⟩ := au3Rule_parts (toRNA s)
  obtain ⟨e5, b5⟩ := polyRule_parts s
  obtain ⟨e6, b6⟩ := au5Rule_parts (toRNA s)
  obtain ⟨e7, b7⟩ := gc3Rule_parts (toRNA s)
  refine ⟨?_, ?_, ?_⟩
  · rw [hs]; omega
  · rw [hs, specScore, gcRule_eq_spec hlen hACGT, pos1Rule_eq_spec hlen hACGT,
      pos19Rule_eq_spec hlen hACGT, au3Rule_eq_spec hACGT, polyRule_eq_spec hACGT,
      au5Rule_eq_spec hACGT, gc3Rule_eq_spec hACGT]
  · rw [hd, hs]
    simp only [List.map_append, List.sum_append, e1, e2, e3, e4, e5, e6, e7]

/-! ### The local off-target check (claim C3) -/

theorem card_filter_range_eq_countP (p : ℕ → Prop) [DecidablePred p] :
    ∀ n : ℕ, ((Finset.range n).filter p).card = (List.range n).countP (fun i => decide (p i)) := by
  intro n
  induction n with
  | zero => simp
  | succ n ih =>
    rw [Finset.range_succ, Finset.filter_insert, List.range_succ, List.countP_append]
    by_cases h : p n
    · rw [if_pos h, Finset.card_insert_of_not_mem (fun hmem => by
        have := Finset.mem_of_mem_filter n hmem
        simp at this)]
      simp [h, ih]
    · rw [if_neg h]
      simp [h, ih]

theorem specSimilarSpots_card (sense src : List Char) :
    (specSimilarSpots sense src).card
      = (List.range (src.length - 18)).countP
          (fun i => decide (16 ≤ matchCount sense ((src.drop i).take 19))) := by
  have h1 : specSimilarSpots sense src
      = (Finset.range (src.length - 18)).filter
          (fun i => 16 ≤ matchCount sense ((src.drop i).take 19)) := by
    unfold specSimilarSpots
    ext i
    simp only [Finset.mem_filter, Finset.mem_range]
    constructor
    · rintro ⟨h1, h2, h3⟩
      exact ⟨by omega, h3⟩
    · rintro ⟨h1, h2⟩
      exact ⟨by omega, by omega, h2⟩
  rw [h1, card_filter_range_eq_countP]

theorem check_off_targets_local_iff (sense src : List Char) :
    check_off_targets_local sense src = true ↔ (specSimilarSpots sense src).card ≤ 1 := by
  simp only [check_off_targets_local, decide_eq_true_eq]
  rw [specSimilarSpots_card]

theorem matchCount_self {m : List Char} : matchCount m m = m.length := by
  unfold matchCount
  rw [countP_zip_self]
  simp

theorem check_replicate_fails {m : List Char} (hm : m.length = 19) {k : ℕ} (hk : 2 ≤ k) :
    check_off_targets_local m ((List.replicate k m).flatten) = false := by
  obtain ⟨j, rfl⟩ : ∃ j, k = j + 2 := ⟨k - 2, by omega⟩
  have hsplit : (List.replicate (j + 2) m).flatten = m ++ (m ++ (List.replicate j m).flatten) := by
    rw [show j + 2 = (j + 1) + 1 from rfl, List.replicate_succ, List.replicate_succ,
      List.flatten_cons, List.flatten_cons]
  have hrest : ((List.replicate j m).flatten).length = j * 19 := by
    rw [List.length_flatten]
    simp [hm, Nat.mul_comm]
  have hlen : ((List.replicate (j + 2) m).flatten).length = 38 + j * 19 := by
    rw [hsplit]
    simp [hm, hrest]
    omega
  have hw0 : (((List.replicate (j + 2) m).flatten).drop 0).take 19 = m := by
    rw [List.drop_zero, hsplit, ← hm, List.take_left]
  have hw19 : (((List.replicate (j + 2) m).flatten).drop 19).take 19 = m := by
    rw [hsplit, ← hm, List.drop_left, List.take_left]
  have hmc : matchCount m m = 19 := by rw [matchCount_self, hm]
  simp only [check_off_targets_local]
  have h2 : 2 ≤ (List.range (((List.replicate (j + 2) m).flatten).length - 18)).countP
      (fun i => decide (16 ≤ matchCount m ((((List.replicate (j + 2) m).flatten).drop i).take 19))) := by
    refine two_le_countP_range _ 0 19 (by omega) ?_ ?_ _ (by omega)
    · rw [decide_eq_true_eq, hw0, hmc]; omega
    · rw [decide_eq_true_eq, hw19, hmc]; omega
  rw [decide_eq_false_iff_not]
  omega

/-- Claim C3: the local redundancy check returns PASS iff at most one start
position of the source has a same-width window matching the candidate in at
least 16 of 19 positions (the PASS direction of the iff also covers sources
with no repeated similar subsequence); a source that concatenates one
19-mer at least twice FAILs the motif itself. -/
theorem C3_local_check_correct :
    (∀ sense src : List Char,
        (check_off_targets_local sense src = true ↔ (specSimilarSpots sense src).card ≤ 1)) ∧
      ∀ m : List Char, m.length = 19 → ∀ k : ℕ, 2 ≤ k →
        check_off_targets_local m ((List.replicate k m).flatten) = false :=
  ⟨check_off_targets_local_iff, fun _ hm _ hk => check_replicate_fails hm hk⟩

/-! ### Stable sort lemmas -/

theorem insertStable_perm {α : Type} (le : α → α → Bool) (a : α) :
    ∀ l : List α, (insertStable le a l).Perm (a :: l)
  | [] => List.Perm.refl _
  | b :: t => by
    unfold insertStable
    by_cases h : le b a
    · rw [if_pos h]
      exact ((insertStable_perm le a t).cons b).trans (List.Perm.swap a b t)
    · rw [if_neg h]

theorem pySort_perm_aux {α : Type} (le : α → α → Bool) :
    ∀ l acc : List α,
      (l.foldl (fun acc x => insertStable le x acc) acc).Perm (l ++ acc)
  | [], acc => by simp
  | a :: l, acc => by
    simp only [List.foldl_cons]
    have h1 : (l.foldl (fun acc x => insertStable le x acc) (insertStable le a acc)).Perm
        (l ++ insertStable le a acc) := pySort_perm_aux le l _
    have h2 : (l ++ insertStable le a acc).Perm (l ++ (a :: acc)) :=
      List.Perm.append_left l (insertStable_perm le a acc)
    have h3 : (l ++ (a :: acc)).Perm (a :: (l ++ acc)) := List.perm_middle
    exact (h1.trans h2).trans h3

theorem pySort_perm {α : Type} (le : α → α → Bool) (l : List α) :
    (pySort le l).Perm l := by
  simpa using pySort_perm_aux le l []

theorem insertStable_pairwise_SR {α : Type} (le : α → α → Bool) (pos : α → ℕ)
    (htrans : ∀ x y z, le x y = true → le y z = true → le x z = true)
    (htot : ∀ x y, le x y = true ∨ le y x = true) (a : α) :
    ∀ l : List α,
      l.Pairwise (fun x y => le x y = true ∧ (le y x = true → pos x < pos y)) →
      (∀ b ∈ l, pos b < pos a) →
      (insertStable le a l).Pairwise
        (fun x y => le x y = true ∧ (le y x = true → pos x < pos y))
  | [], _, _ => by simp [insertStable]
  | b :: t, hl, hpos => by
    unfold insertStable
    rcases List.pairwise_cons.mp hl with ⟨hbt, ht⟩
    by_cases h : le b a = true
    · rw [if_pos h]
      refine List.pairwise_cons.mpr ⟨?_, insertStable_pairwise_SR le pos htrans htot a t ht
        (fun c hc => hpos c (List.mem_cons_of_mem b hc))⟩
      intro x hx
      rcases List.mem_cons.mp ((insertStable_perm le a t).mem_iff.mp hx) with rfl | hxt
      · exact ⟨h, fun _ => hpos b (by simp)⟩
      · exact hbt x hxt
    · rw [if_neg h]
      have hab : le a b = true := (htot a b).resolve_right h
      refine List.pairwise_cons.mpr ⟨?_, hl⟩
      intro x hx
      rcases List.mem_cons.mp hx with rfl | hxt
      · exact ⟨hab, fun hba => absurd hba h⟩
      · obtain ⟨hbx, _⟩ := hbt x hxt
        exact ⟨htrans a b x hab hbx, fun hxa => absurd (htrans b x a hbx hxa) h⟩

theorem pySort_pairwise_SR_aux {α : Type} (le : α → α → Bool) (pos : α → ℕ)
    (htrans : ∀ x y z, le x y = true → le y z = true → le x z = true)
    (htot : ∀ x y, le x y = true ∨ le y x = true) :
    ∀ l acc : List α,
      acc.Pairwise (fun x y => le x y = true ∧ (le y x = true → pos x < pos y)) →
      (∀ b ∈ acc, ∀ x ∈ l, pos b < pos x) →
      l.Pairwise (fun x y => pos x < pos y) →
      (l.foldl (fun acc x => insertStable le x acc) acc).Pairwise
        (fun x y => le x y = true ∧ (le y x = true → pos x < pos y))
  | [], _, hacc, _, _ => hacc
  | a :: l, acc, hacc, hcross, hposl => by
    simp only [List.foldl_cons]
    rcases List.pairwise_cons.mp hposl with ⟨hal, hl⟩
    refine pySort_pairwise_SR_aux le pos htrans htot l (insertStable le a acc) ?_ ?_ hl
    · exact insertStable_pairwise_SR le pos htrans htot a acc hacc
        (fun b hb => hcross b hb a (by simp))
    · intro b hb x hx
      rcases List.mem_cons.mp ((insertStable_perm le a acc).mem_iff.mp hb) with rfl | hbacc
      · exact hal x hx
      · exact hcross b hbacc x (List.mem_cons_of_mem a hx)

theorem pySort_pairwise_SR {α : Type} (le : α → α → Bool) (pos : α → ℕ)
    (htrans : ∀ x y z, le x y = true → le y z = true → le x z = true)
    (htot : ∀ x y, le x y = true ∨ le y x = true) (l : List α)
    (hpos : l.Pairwise (fun x y => pos x < pos y)) :
    (pySort le l).Pairwise (fun x y => le x y = true ∧ (le y x = true → pos x < pos y)) :=
  pySort_pairwise_SR_aux le pos htrans htot l [] (by simp) (by simp) hpos

theorem sirnaLe_trans (x y z : Candidate) (hxy : sirnaLe x y = true)
    (hyz : sirnaLe y z = true) : sirnaLe x z = true := by
  simp only [sirnaLe, decide_eq_true_eq] at hxy hyz ⊢
  rcases hxy with h | ⟨e, d⟩ <;> rcases hyz with h2 | ⟨e2, d2⟩
  · exact Or.inl (by omega)
  · exact Or.inl (by omega)
  · exact Or.inl (by omega)
  · exact Or.inr ⟨by omega, le_trans d d2⟩

theorem sirnaLe_total (x y : Candidate) : sirnaLe x y = true ∨ sirnaLe y x = true := by
  simp only [sirnaLe, decide_eq_true_eq]
  rcases Nat.lt_trichotomy x.score y.score with h | h | h
  · exact Or.inr (Or.inl h)
  · rcases le_total (gcDist x) (gcDist y) with hd | hd
    · exact Or.inl (Or.inr ⟨h, hd⟩)
    · exact Or.inr (Or.inr ⟨h.symm, hd⟩)
  · exact Or.inl (Or.inl h)

/-! ### Generator lemmas -/

theorem genCandidates_eq_map_filter (cds : List Char) :
    genCandidates cds
      = ((List.range (cds.length - 18)).filter (validWindow cds)).map (mkCandidate cds) :=
  filterMap_if_eq_map_filter _ _ _

theorem mkCandidate_position (cds : List Char) (i : ℕ) :
    (mkCandidate cds i).position = i + 1 := rfl

theorem genCandidates_pos_strict (cds : List Char) :
    (genCandidates cds).Pairwise (fun a b => a.position < b.position) := by
  rw [genCandidates_eq_map_filter]
  rw [List.pairwise_map]
  refine List.Pairwise.imp ?_
    (List.Pairwise.sublist (List.filter_sublist _) (List.pairwise_lt_range _))
  intro a b h
  simpa [mkCandidate_position] using Nat.succ_lt_succ h

theorem mem_genCandidates {cds : List Char} {c : Candidate} :
    c ∈ genCandidates cds
      ↔ ∃ i, i + 19 ≤ cds.length ∧ validWindow cds i = true ∧ c = mkCandidate cds i := by
  rw [genCandidates_eq_map_filter]
  simp only [List.mem_map, List.mem_filter, List.mem_range]
  constructor
  · rintro ⟨i, ⟨hlt, hv⟩, rfl⟩
    exact ⟨i, by omega, hv, rfl⟩
  · rintro ⟨i, hle, hv, rfl⟩
    exact ⟨i, ⟨by omega, hv⟩, rfl⟩

theorem mem_genCandidates_sense_length {cds : List Char} {c : Candidate}
    (h : c ∈ genCandidates cds) : c.sense_seq.length = 19 := by
  obtain ⟨i, hle, _, rfl⟩ := mem_genCandidates.mp h
  simp only [mkCandidate, List.length_take, List.length_drop]
  omega

/-! ### The generator: emptiness, partiality, ordering (claims C2, C9, C10) -/

theorem generate_eq_none_iff (cds : List Char) (top_n : ℕ) :
    generate_sirna_candidates cds top_n = none ↔ genCandidates cds = [] := by
  have hperm := pySort_perm sirnaLe (genCandidates cds)
  unfold generate_sirna_candidates
  rcases h : pySort sirnaLe (genCandidates cds) with _ | ⟨c, t⟩ <;> rw [h] at hperm
  · simp [List.Perm.eq_nil hperm.symm]
  · have hne : genCandidates cds ≠ [] := by
      intro hh
      rw [hh] at hperm
      exact absurd hperm.eq_nil (by simp)
    simp [hne]

theorem generate_eq_some {cds : List Char} {out : List Candidate} {top_n : ℕ}
    (h : generate_sirna_candidates cds top_n = some out) :
    out = (pySort sirnaLe (genCandidates cds)).take top_n := by
  unfold generate_sirna_candidates at h
  rcases hh : pySort sirnaLe (genCandidates cds) with _ | ⟨c, t⟩ <;> rw [hh] at h
  · exact absurd h (by simp)
  · simp at h
    exact h.symm

theorem genCandidates_eq_nil_iff (cds : List Char) :
    genCandidates cds = [] ↔ ∀ i, i + 19 ≤ cds.length → validWindow cds i = false := by
  rw [genCandidates_eq_map_filter, List.map_eq_nil_iff, List.filter_eq_nil_iff]
  constructor
  · intro h i hi
    have := h i (List.mem_range.mpr (by omega))
    simpa using this
  · intro h i hi
    have := h i (by have := List.mem_range.mp hi; omega)
    simp [this]

/-- Claim C10: the generator is total only under the precondition that a
valid window exists.  It returns no result (the `IndexError` raised by the
unguarded `candidates[0]` access, modelled as `none`) exactly when the
source is shorter than 19 symbols or every 19-symbol window contains a
non-ACGT symbol; when some valid window exists it completes normally. -/
theorem C10_generator_partiality (cds : List Char) :
    (generate_sirna_candidates cds 50 = none
      ↔ (cds.length < 19 ∨ ∀ i, i + 19 ≤ cds.length → validWindow cds i = false)) ∧
    ((∃ i, i + 19 ≤ cds.length ∧ validWindow cds i = true) →
      ∃ out, generate_sirna_candidates cds 50 = some out) := by
  constructor
  · rw [generate_eq_none_iff, genCandidates_eq_nil_iff]
    constructor
    · intro h
      exact Or.inr h
    · rintro (h | h)
      · intro i hi
        exact absurd hi (by omega)
      · exact h
  · rintro ⟨i, hi, hv⟩
    rcases hout : generate_sirna_candidates cds 50 with _ | out
    · rw [generate_eq_none_iff, genCandidates_eq_nil_iff] at hout
      exact absurd (hout i hi) (by simp [hv])
    · exact ⟨out, rfl⟩

/-- Claim C9 is false on the code: a source of length exactly W = 19 does
produce a Candidate (the loop `range(len - 18)` runs once already at
length 19, not only from length 20). -/
theorem C9_counterexample : demoCds.length = 19 ∧ genCandidates demoCds ≠ [] := by
  with_unfolding_all decide

/-- Claim C9 (amended): a candidate can exist only when the source length
is at least the window length W = 19 (not W + 1 as claimed): any shorter
source yields no candidate, and an all-valid source of length exactly 19
yields exactly one. -/
theorem C9_min_length_amended :
    (∀ cds : List Char, genCandidates cds ≠ [] → 19 ≤ cds.length) ∧
    (∀ cds : List Char, cds.length < 19 → genCandidates cds = []) ∧
    (∀ cds : List Char, cds.length = 19 → validWindow cds 0 = true →
      (genCandidates cds).length = 1) := by
  refine ⟨?_, ?_, ?_⟩
  · intro cds h
    by_contra hlt
    exact h ((genCandidates_eq_nil_iff cds).mpr (fun i hi => absurd hi (by omega)))
  · intro cds h
    exact (genCandidates_eq_nil_iff cds).mpr (fun i hi => absurd hi (by omega))
  · intro cds hlen hv
    rw [genCandidates_eq_map_filter, List.length_map]
    have hr : List.range (cds.length - 18) = [0] := by rw [hlen]; rfl
    rw [hr]
    simp [List.filter_cons, hv]

/-- Witness for C9 (amended), at the 19 bp demo source. -/
theorem C9_witness :
    19 ≤ demoCds.length ∧ genCandidates (demoCds.take 18) = []
      ∧ (genCandidates demoCds).length = 1 :=
  ⟨C9_min_length_amended.1 demoCds (by with_unfolding_all decide),
   C9_min_length_amended.2.1 (demoCds.take 18) (by with_unfolding_all decide),
   C9_min_length_amended.2.2 demoCds (by with_unfolding_all decide)
     (by with_unfolding_all decide)⟩

/-- Witness for C10, at the 19 bp demo source. -/
theorem C10_witness : ∃ out, generate_sirna_candidates demoCds 50 = some out :=
  (C10_generator_partiality demoCds).2 ⟨0, by with_unfolding_all decide,
    by with_unfolding_all decide⟩

/-- Claim C2 is false on the code: the generator does not return the
candidate set in position order.  On `cex2` both windows are valid but the
returned positions are [2, 1] (sorted by score), not [1, 2]. -/
theorem C2_counterexample :
    ((generate_sirna_candidates cex2 50).getD []).map (fun c => c.position) = [2, 1] ∧
      ((generate_sirna_candidates cex2 50).getD []).map (fun c => c.position)
        ≠ ((List.range (cex2.length - 18)).filter (validWindow cex2)).map (fun i => i + 1) := by
  with_unfolding_all decide

/-- Claim C2 (amended): the sliding-window loop builds exactly one candidate
per valid start position i in [0, N-W], in position order, with senseSequence
of length 19 at 1-based position i+1, and windows with ambiguous symbols never
become candidates; but the function then sorts the candidates by descending
score (ties by |gc% − 40|) and returns only the best 50, so the returned list
is in that sort order, not position order. -/
theorem C2_generator_amended (cds : List Char) :
    ((genCandidates cds).map (fun c => c.position)
        = ((List.range (cds.length - 18)).filter (validWindow cds)).map (fun i => i + 1)) ∧
    (∀ c ∈ genCandidates cds,
        c.sense_seq = (cds.drop (c.position - 1)).take 19 ∧ c.sense_seq.length = 19 ∧
          validWindow cds (c.position - 1) = true) ∧
    (∀ out, generate_sirna_candidates cds 50 = some out →
        out = (pySort sirnaLe (genCandidates cds)).take 50 ∧
          out.Sublist (pySort sirnaLe (genCandidates cds)) ∧
          out.Pairwise (fun a b => sirnaLe a b = true) ∧ out.length ≤ 50) := by
  refine ⟨?_, ?_, ?_⟩
  · rw [genCandidates_eq_map_filter, List.map_map]
    exact List.map_congr_left (fun i _ => mkCandidate_position cds i)
  · intro c hc
    obtain ⟨i, hle, hv, rfl⟩ := mem_genCandidates.mp hc
    rw [mkCandidate_position]
    simp only [Nat.add_sub_cancel]
    refine ⟨rfl, ?_, hv⟩
    simp only [mkCandidate, List.length_take, List.length_drop]
    omega
  · intro out hout
    have he := generate_eq_some hout
    have hpw : (pySort sirnaLe (genCandidates cds)).Pairwise
        (fun a b => sirnaLe a b = true ∧ (sirnaLe b a = true → a.position < b.position)) :=
      pySort_pairwise_SR sirnaLe (fun c => c.position) sirnaLe_trans sirnaLe_total
        (genCandidates cds) (genCandidates_pos_strict cds)
    refine ⟨he, he ▸ List.take_sublist _ _, ?_, he ▸ List.length_take_le _ _⟩
    rw [he]
    exact ((hpw.sublist (List.take_sublist _ _)).imp (fun h => h.1))

/-- Witness for C2 (amended), at the 19 bp demo source. -/
theorem C2_witness :
    demoOut = (pySort sirnaLe (genCandidates demoCds)).take 50 ∧ demoOut.length ≤ 50 :=
  have h := (C2_generator_amended demoCds).2.2 demoOut (by with_unfolding_all decide)
  ⟨h.1, h.2.2.2⟩

/-! ### The filtering and ranking stage (claims C4, C5, C6, C7, C8) -/

theorem surviveStep_shape (rb : Bool) (orc : Oracle) (c : Candidate) :
    surviveStep rb orc c
      = if c.local_check = FAIL then none
        else if c.gc_percent < 25 ∨ 55 < c.gc_percent then none
        else if (if rb then run_blast_check orc c.sense_seq false
            else (PASS, "Local check only")).1 ≠ FAIL
          then some (c, (if rb then run_blast_check orc c.sense_seq false
              else (PASS, "Local check only")).1,
            (if rb then run_blast_check orc c.sense_seq false
              else (PASS, "Local check only")).2)
          else none := rfl

theorem surviveStep_eq_some {rb : Bool} {orc : Oracle} {c : Candidate}
    {t : Candidate × String × String} (h : surviveStep rb orc c = some t) :
    t.1 = c ∧ c.local_check ≠ FAIL ∧ ¬(c.gc_percent < 25 ∨ 55 < c.gc_percent)
      ∧ t.2.1 ≠ FAIL := by
  rw [surviveStep_shape] at h
  by_cases h1 : c.local_check = FAIL
  · rw [if_pos h1] at h
    exact absurd h (by simp)
  rw [if_neg h1] at h
  by_cases h2 : c.gc_percent < 25 ∨ 55 < c.gc_percent
  · rw [if_pos h2] at h
    exact absurd h (by simp)
  rw [if_neg h2] at h
  by_cases h3 : (if rb then run_blast_check orc c.sense_seq false
      else (PASS, "Local check only")).1 ≠ FAIL
  · rw [if_pos h3] at h
    simp only [Option.some.injEq] at h
    subst h
    exact ⟨rfl, h1, h2, h3⟩
  · rw [if_neg h3] at h
    exact absurd h (by simp)

theorem surviveStep_off (orc : Oracle) (c : Candidate) :
    surviveStep false orc c
      = if c.local_check = FAIL ∨ (c.gc_percent < 25 ∨ 55 < c.gc_percent) then none
        else some (c, PASS, "Local check only") := by
  have hne : (PASS ≠ FAIL) := by decide
  rw [surviveStep_shape]
  by_cases h1 : c.local_check = FAIL <;> by_cases h2 : c.gc_percent < 25 ∨ 55 < c.gc_percent <;>
    simp [h1, h2, hne]

theorem run_blast_check_error (e : String) (sense : List Char) :
    run_blast_check (fun _ => Except.error e) sense false
      = (UNKNOWN, "BLAST error: " ++ e) := rfl

theorem surviveStep_err (e : String) (c : Candidate) :
    surviveStep true (fun _ => Except.error e) c
      = if c.local_check = FAIL ∨ (c.gc_percent < 25 ∨ 55 < c.gc_percent) then none
        else some (c, UNKNOWN, "BLAST error: " ++ e) := by
  have hne : (UNKNOWN ≠ FAIL) := by decide
  rw [surviveStep_shape]
  by_cases h1 : c.local_check = FAIL <;> by_cases h2 : c.gc_percent < 25 ∨ 55 < c.gc_percent <;>
    simp [h1, h2, hne, run_blast_check_error]

theorem filterMap_const_step {rb : Bool} {orc : Oracle} (v note : String)
    (hstep : ∀ c : Candidate, surviveStep rb orc c
      = if c.local_check = FAIL ∨ (c.gc_percent < 25 ∨ 55 < c.gc_percent) then none
        else some (c, v, note)) (l : List Candidate) :
    l.filterMap (surviveStep rb orc)
      = (l.filter (fun c =>
          !(decide (c.local_check = FAIL ∨ (c.gc_percent < 25 ∨ 55 < c.gc_percent))))).map
          (fun c => (c, v, note)) := by
  have hfn : surviveStep rb orc = (fun c : Candidate =>
      if (!(decide (c.local_check = FAIL ∨ (c.gc_percent < 25 ∨ 55 < c.gc_percent)))) = true
        then some (c, v, note) else none) := by
    funext c
    rw [hstep c]
    by_cases h : c.local_check = FAIL ∨ (c.gc_percent < 25 ∨ 55 < c.gc_percent) <;> simp [h]
  rw [hfn, filterMap_if_eq_map_filter]

theorem filter_and_rank_const {rb : Bool} {orc : Oracle} (v note : String)
    (hstep : ∀ c : Candidate, surviveStep rb orc c
      = if c.local_check = FAIL ∨ (c.gc_percent < 25 ∨ 55 < c.gc_percent) then none
        else some (c, v, note)) (cands : List Candidate) :
    (filter_and_rank_candidates rb orc cands).map (fun r => (r.cand, r.rank))
      = (((cands.filter (fun c =>
            !(decide (c.local_check = FAIL ∨ (c.gc_percent < 25 ∨ 55 < c.gc_percent))))).enum).map
          (fun p => (p.2, p.1 + 1))).take 10
      ∧ ∀ r ∈ filter_and_rank_candidates rb orc cands,
          r.off_target = v ∧ r.blast_note = note := by
  unfold filter_and_rank_candidates
  rw [filterMap_const_step v note hstep, List.enum_map]
  constructor
  · rw [List.map_take, List.map_map, List.map_map]
    rfl
  · intro r hr
    obtain ⟨p, hp, rfl⟩ := List.mem_map.mp (List.mem_of_mem_take hr)
    obtain ⟨q, hq, rfl⟩ := List.mem_map.mp hp
    exact ⟨rfl, rfl⟩

/-- Claim C7: when the remote check is enabled and every remote call errors,
the pipeline does not crash: every surviving candidate gets offTargetVerdict
UNKNOWN (with the error message as the note), no candidate is discarded
because of the error, and the shortlist (membership, order and ranks) is
identical to a run with the remote check disabled. -/
theorem C7_remote_error_degrades (cands : List Candidate) (e : String) (orc : Oracle) :
    (∀ r ∈ filter_and_rank_candidates true (fun _ => Except.error e) cands,
        r.off_target = UNKNOWN ∧ r.blast_note = "BLAST error: " ++ e) ∧
    (filter_and_rank_candidates true (fun _ => Except.error e) cands).map
        (fun r => (r.cand, r.rank))
      = (filter_and_rank_candidates false orc cands).map (fun r => (r.cand, r.rank)) := by
  obtain ⟨he1, he2⟩ := filter_and_rank_const UNKNOWN ("BLAST error: " ++ e)
    (surviveStep_err e) cands
  obtain ⟨hd1, _⟩ := filter_and_rank_const PASS "Local check only" (surviveStep_off orc) cands
  exact ⟨he2, he1.trans hd1.symm⟩

theorem map_fst_filterMap_sublist {α β : Type} (f : α → Option (α × β))
    (hf : ∀ a t, f a = some t → t.1 = a) :
    ∀ l : List α, ((l.filterMap f).map (fun t => t.1)).Sublist l
  | [] => List.Sublist.refl _
  | a :: l => by
    rw [List.filterMap_cons]
    rcases hfa : f a with _ | t
    · exact (map_fst_filterMap_sublist f hf l).cons a
    · rw [List.map_cons, hf a t hfa]
      exact (map_fst_filterMap_sublist f hf l).cons₂ a

theorem shortlist_cand_sublist (rb : Bool) (orc : Oracle) (cands : List Candidate) :
    ((filter_and_rank_candidates rb orc cands).map (fun r => r.cand)).Sublist cands := by
  unfold filter_and_rank_candidates
  rw [List.map_take, List.map_map]
  have hmap : (List.map
      ((fun r : Ranked => r.cand) ∘ fun p : ℕ × Candidate × String × String =>
        { cand := p.2.1, off_target := p.2.2.1, blast_note := p.2.2.2, rank := p.1 + 1 })
      ((cands.filterMap (surviveStep rb orc)).enum))
      = ((cands.filterMap (surviveStep rb orc)).enum).map (fun p => p.2.1) := rfl
  rw [hmap]
  have henum : ((cands.filterMap (surviveStep rb orc)).enum).map (fun p => p.2.1)
      = ((cands.filterMap (surviveStep rb orc)).map (fun t => t.1)) := by
    rw [show (fun p : ℕ × Candidate × String × String => p.2.1)
        = (fun t : Candidate × String × String => t.1) ∘ Prod.snd from rfl]
    rw [← List.map_map, List.enum_map_snd]
  rw [henum]
  exact List.Sublist.trans (List.take_sublist _ _)
    (map_fst_filterMap_sublist _ (fun a t h => (surviveStep_eq_some h).1) cands)

theorem mem_shortlist_cand {rb : Bool} {orc : Oracle} {cands : List Candidate} {r : Ranked}
    (h : r ∈ filter_and_rank_candidates rb orc cands) : r.cand ∈ cands :=
  (shortlist_cand_sublist rb orc cands).subset
    (List.mem_map.mpr ⟨r, h, rfl⟩)

theorem mem_shortlist_surviveStep {rb : Bool} {orc : Oracle} {cands : List Candidate}
    {r : Ranked} (h : r ∈ filter_and_rank_candidates rb orc cands) :
    ∃ c ∈ cands, surviveStep rb orc c = some (r.cand, r.off_target, r.blast_note) := by
  unfold filter_and_rank_candidates at h
  obtain ⟨p, hp, hr⟩ := List.mem_map.mp (List.mem_of_mem_take h)
  have hp2 : p.2 ∈ cands.filterMap (surviveStep rb orc) := by
    have := List.mem_map_of_mem Prod.snd hp
    rwa [List.enum_map_snd] at this
  obtain ⟨c, hc, hsc⟩ := List.mem_filterMap.mp hp2
  refine ⟨c, hc, ?_⟩
  rw [← hr]
  simpa using hsc

theorem mem_out_mem_gen {cds : List Char} {out : List Candidate} {c : Candidate}
    (hout : generate_sirna_candidates cds 50 = some out) (hc : c ∈ out) :
    c ∈ genCandidates cds := by
  rw [generate_eq_some hout] at hc
  exact (pySort_perm sirnaLe (genCandidates cds)).subset (List.mem_of_mem_take hc)

theorem calculate_gc_content_countP_upper (s : List Char) :
    calculate_gc_content s
      = ((s.countP (fun b => isGC b.toUpper) : ℕ) : ℚ) / ((s.length : ℕ) : ℚ) * 100 := by
  unfold calculate_gc_content
  rw [count_GC_eq_countP, List.countP_map]
  rfl

theorem mem_genCandidates_gc {cds : List Char} {c : Candidate} (h : c ∈ genCandidates cds) :
    ∃ n : ℕ, n ≤ 19 ∧ c.gc_percent = round1 ((n : ℚ) / 19 * 100)
      ∧ gcFraction c = (n : ℚ) / 19 := by
  obtain ⟨i, hle, hv, rfl⟩ := mem_genCandidates.mp h
  have hlen : ((cds.drop i).take 19).length = 19 := by
    simp only [List.length_take, List.length_drop]
    omega
  refine ⟨((cds.drop i).take 19).countP (fun b => isGC b.toUpper), ?_, ?_, ?_⟩
  · have h0 := List.countP_le_length (fun b => isGC b.toUpper) (l := (cds.drop i).take 19)
    omega
  · show round1 (calculate_gc_content ((cds.drop i).take 19)) = _
    rw [calculate_gc_content_countP_upper, hlen]
    try norm_num
  · unfold gcFraction
    rfl

theorem round1_gc_bounds :
    ∀ n : ℕ, n < 20 → (25 ≤ round1 ((n : ℚ) / 19 * 100) ∧ round1 ((n : ℚ) / 19 * 100) ≤ 55)
      → (1 / 4 ≤ (n : ℚ) / 19 ∧ (n : ℚ) / 19 ≤ 11 / 20) := by
  intro n hn
  interval_cases n <;> (intro h; revert h) <;> with_unfolding_all decide

theorem round1_gc_dist_order :
    ∀ n1 : ℕ, n1 < 20 → ∀ n2 : ℕ, n2 < 20 →
      (|round1 ((n1 : ℚ) / 19 * 100) - 40| ≤ |round1 ((n2 : ℚ) / 19 * 100) - 40|
        ↔ |(n1 : ℚ) / 19 - 2 / 5| ≤ |(n2 : ℚ) / 19 - 2 / 5|) := by
  intro n1 hn1 n2 hn2
  interval_cases n1 <;> interval_cases n2 <;> with_unfolding_all decide

/-- Claim C5: every entry of the final shortlist has localRedundancyVerdict
PASS and GC within the hard bound: the stored (rounded) GC percentage lies
in [25, 55] and the exact GC fraction lies in [25%, 55%]; in particular a
candidate with GC fraction 0.60 never appears in the shortlist. -/
theorem C5_shortlist_filtered (cds : List Char) (out : List Candidate) (rb : Bool)
    (orc : Oracle) (r : Ranked) (hout : generate_sirna_candidates cds 50 = some out)
    (hr : r ∈ filter_and_rank_candidates rb orc out) :
    r.cand.local_check = PASS ∧ (25 ≤ r.cand.gc_percent ∧ r.cand.gc_percent ≤ 55)
      ∧ (1 / 4 ≤ gcFraction r.cand ∧ gcFraction r.cand ≤ 11 / 20) := by
  obtain ⟨c, hc, hsc⟩ := mem_shortlist_surviveStep hr
  obtain ⟨hfst, hlc, hgc, _⟩ := surviveStep_eq_some hsc
  have hrc : r.cand = c := hfst
  push_neg at hgc
  obtain ⟨hgc1, hgc2⟩ := hgc
  have hcg : c ∈ genCandidates cds := mem_out_mem_gen hout hc
  obtain ⟨i, hle, hv, hceq⟩ := mem_genCandidates.mp hcg
  have hpass : c.local_check = PASS := by
    rw [hceq] at hlc ⊢
    by_cases hb : check_off_targets_local ((cds.drop i).take 19) cds = true
    · simp [mkCandidate, hb]
    · exfalso
      apply hlc
      simp [mkCandidate, hb]
  obtain ⟨n, hn19, hgp, hfr⟩ := mem_genCandidates_gc hcg
  refine ⟨hrc ▸ hpass, hrc ▸ ⟨hgc1, hgc2⟩, ?_⟩
  rw [hrc, hfr]
  exact round1_gc_bounds n (by omega) ⟨hgp ▸ hgc1, hgp ▸ hgc2⟩

theorem SR_imp_rankedBefore {cds : List Char} {a b : Candidate}
    (ha : a ∈ genCandidates cds) (hb : b ∈ genCandidates cds)
    (h1 : sirnaLe a b = true) (h2 : sirnaLe b a = true → a.position < b.position) :
    rankedBefore a b := by
  obtain ⟨na, hna, hga, hfa⟩ := mem_genCandidates_gc ha
  obtain ⟨nb, hnb, hgb, hfb⟩ := mem_genCandidates_gc hb
  simp only [sirnaLe, decide_eq_true_eq] at h1 h2
  unfold gcDist at h1 h2
  rw [hga, hgb] at h1 h2
  unfold rankedBefore gcTarget
  rw [hfa, hfb]
  rcases h1 with h | ⟨he, hd⟩
  · exact Or.inl h
  · have hdist : |(na : ℚ) / 19 - 2 / 5| ≤ |(nb : ℚ) / 19 - 2 / 5| :=
      (round1_gc_dist_order na (by omega) nb (by omega)).mp hd
    rcases lt_or_eq_of_le hdist with hlt | heq
    · exact Or.inr (Or.inl ⟨he, hlt⟩)
    · refine Or.inr (Or.inr ⟨he, heq, ?_⟩)
      apply h2
      exact Or.inr ⟨he.symm,
        (round1_gc_dist_order nb (by omega) na (by omega)).mpr (le_of_eq heq.symm)⟩

theorem take_range'_eq : ∀ (m n s : ℕ), (List.range' s n).take m = List.range' s (min m n)
  | 0, n, s => by simp
  | m + 1, 0, s => by simp
  | m + 1, n + 1, s => by
    rw [List.range'_succ, List.take_succ_cons, take_range'_eq m n (s + 1)]
    rw [Nat.succ_min_succ, List.range'_succ]

theorem ranks_dense (rb : Bool) (orc : Oracle) (cands : List Candidate) :
    (filter_and_rank_candidates rb orc cands).map (fun r => r.rank)
      = List.range' 1 (filter_and_rank_candidates rb orc cands).length := by
  unfold filter_and_rank_candidates
  rw [List.map_take, List.map_map, List.length_take, List.length_map, List.enum_length]
  have h1 : (List.map ((fun r : Ranked => r.rank) ∘ fun p : ℕ × Candidate × String × String =>
      { cand := p.2.1, off_target := p.2.2.1, blast_note := p.2.2.2, rank := p.1 + 1 })
      ((cands.filterMap (surviveStep rb orc)).enum))
      = (((cands.filterMap (surviveStep rb orc)).enum.map Prod.fst).map (fun i => i + 1)) := by
    rw [List.map_map]
    rfl
  rw [h1, List.enum_map_fst]
  have h3 : ∀ n : ℕ, (List.range n).map (fun i => i + 1) = List.range' 1 n := by
    intro n
    induction n with
    | zero => rfl
    | succ n ih =>
      rw [List.range_succ, List.map_append, ih, List.range'_concat]
      simp [Nat.add_comm]
  rw [h3, take_range'_eq]

/-- Claim C4: the shortlist is ordered by descending score, ties broken by
smaller |gcFraction − 0.40|, remaining ties by original generation position
(the generator sort is stable), with dense 1-based ranks assigned to the
survivors in that order. -/
theorem C4_ranking_order (cds : List Char) (out : List Candidate) (rb : Bool) (orc : Oracle)
    (hout : generate_sirna_candidates cds 50 = some out) :
    (filter_and_rank_candidates rb orc out).Pairwise (fun x y => rankedBefore x.cand y.cand) ∧
    (filter_and_rank_candidates rb orc out).map (fun r => r.rank)
      = List.range' 1 (filter_and_rank_candidates rb orc out).length := by
  constructor
  · have hpw : out.Pairwise
        (fun a b => sirnaLe a b = true ∧ (sirnaLe b a = true → a.position < b.position)) := by
      rw [generate_eq_some hout]
      exact List.Pairwise.sublist (List.take_sublist _ _)
        (pySort_pairwise_SR sirnaLe (fun c => c.position) sirnaLe_trans sirnaLe_total
          (genCandidates cds) (genCandidates_pos_strict cds))
    have hsub : ((filter_and_rank_candidates rb orc out).map (fun r => r.cand)).Sublist out :=
      shortlist_cand_sublist rb orc out
    have hmapped : ((filter_and_rank_candidates rb orc out).map
        (fun r => r.cand)).Pairwise rankedBefore := by
      refine List.Pairwise.imp_of_mem ?_ (List.Pairwise.sublist hsub hpw)
      intro a b hamem hbmem hab
      exact SR_imp_rankedBefore (mem_out_mem_gen hout (hsub.subset hamem))
        (mem_out_mem_gen hout (hsub.subset hbmem)) hab.1 hab.2
    rwa [List.pairwise_map] at hmapped
  · exact ranks_dense rb orc out

theorem specComplement_eq_complementChar {c : Char}
    (h : c ∈ (['A', 'C', 'G', 'T'] : List Char)) : complementChar c = specComplement c := by
  simp only [List.mem_cons, List.mem_singleton, List.not_mem_nil, or_false] at h
  rcases h with rfl | rfl | rfl | rfl <;> rfl

theorem revcomp_eq_spec {s : List Char}
    (h : ∀ c ∈ s, c ∈ (['A', 'C', 'G', 'T'] : List Char)) :
    reverse_complement s = revCompSpec s := by
  unfold reverse_complement revCompSpec
  rw [← List.map_reverse]
  exact List.map_congr_left
    (fun c hc => specComplement_eq_complementChar (h c (List.mem_reverse.mp hc)))

theorem validWindow_chars {cds : List Char} {i : ℕ} (hv : validWindow cds i = true)
    (hcds : ∀ ch ∈ cds, ch ∈ (['A', 'C', 'G', 'T', 'N'] : List Char)) :
    ∀ c ∈ (cds.drop i).take 19, c ∈ (['A', 'C', 'G', 'T'] : List Char) := by
  intro c hc
  have h5 := hcds c (List.mem_of_mem_drop (List.mem_of_mem_take hc))
  unfold validWindow at hv
  rw [Bool.not_eq_true'] at hv
  have hall := List.any_eq_false.mp hv c hc
  simp only [Bool.not_eq_false] at hall
  simp only [List.mem_cons, List.mem_singleton, List.not_mem_nil, or_false] at h5
  rcases h5 with rfl | rfl | rfl | rfl | rfl
  · decide
  · decide
  · decide
  · decide
  · exact absurd hall (by decide)

/-- Claim C8: for every generated Candidate (over an A/C/G/T/N source in
upper case), antisenseSequence is the exact reverse complement of
senseSequence (A with T and G with C swapped, order reversed), and the
invariant persists through the whole pipeline to the shortlist, since
candidates are never modified after creation. -/
theorem C8_antisense_revcomp (cds : List Char)
    (hcds : ∀ ch ∈ cds, ch ∈ (['A', 'C', 'G', 'T', 'N'] : List Char)) :
    (∀ c ∈ genCandidates cds, c.antisense_seq = revCompSpec c.sense_seq) ∧
    (∀ (out : List Candidate) (rb : Bool) (orc : Oracle) (r : Ranked),
      generate_sirna_candidates cds 50 = some out →
      r ∈ filter_and_rank_candidates rb orc out →
      r.cand.antisense_seq = revCompSpec r.cand.sense_seq) := by
  have hgen : ∀ c ∈ genCandidates cds, c.antisense_seq = revCompSpec c.sense_seq := by
    intro c hc
    obtain ⟨i, hle, hv, rfl⟩ := mem_genCandidates.mp hc
    show reverse_complement ((cds.drop i).take 19) = revCompSpec ((cds.drop i).take 19)
    exact revcomp_eq_spec (validWindow_chars hv hcds)
  refine ⟨hgen, ?_⟩
  intro out rb orc r hout hr
  exact hgen r.cand (mem_out_mem_gen hout (mem_shortlist_cand hr))

/-- Claim C6 is false on the code: on `cex6` (an 88 bp source with 70
candidate windows) the capped pipeline (top-50 cap before filtering)
returns an empty shortlist while filtering the complete sorted candidate
set returns a non-empty one, so the cap changes which candidates survive,
not merely truncating the shortlist. -/
theorem C6_counterexample :
    filter_and_rank_candidates false demoOracle ((generate_sirna_candidates cex6 50).getD [])
      ≠ filter_and_rank_candidates false demoOracle (pySort sirnaLe (genCandidates cex6)) := by
  with_unfolding_all decide

/-- Claim C6 (amended): the top-50 cap is harmless only conditionally: if
no candidate beyond the first 50 of the sorted candidate list survives the
filter, the capped shortlist equals the shortlist of filtering the complete
candidate list (which already truncates to the top 10); in general (see the
counterexample) the cap can change which candidates survive. -/
theorem C6_cap_amended (rb : Bool) (orc : Oracle) (l : List Candidate)
    (h : ∀ c ∈ l.drop 50, surviveStep rb orc c = none) :
    filter_and_rank_candidates rb orc (l.take 50) = filter_and_rank_candidates rb orc l := by
  unfold filter_and_rank_candidates
  have he : l.filterMap (surviveStep rb orc) = (l.take 50).filterMap (surviveStep rb orc) := by
    conv_lhs => rw [← List.take_append_drop 50 l]
    rw [List.filterMap_append, List.filterMap_eq_nil_iff.mpr h, List.append_nil]
  rw [he]

/-! ### Witnesses -/

/-- Witness for C1 at the demo 19-mer. -/
theorem C1_witness :
    (score_sirna demoCds).1 ≤ 10 ∧ (score_sirna demoCds).1 = specScore demoCds ∧
      (((score_sirna demoCds).2).map Prod.snd).sum = (score_sirna demoCds).1 :=
  C1_scorer_correct (s := demoCds) (by with_unfolding_all decide)
    (by with_unfolding_all decide)

/-- Witness for C3: the demo window against itself (PASS) and against the
motif repeated three times (FAIL). -/
theorem C3_witness :
    (check_off_targets_local demoCds demoCds = true
      ↔ (specSimilarSpots demoCds demoCds).card ≤ 1) ∧
    check_off_targets_local demoCds ((List.replicate 3 demoCds).flatten) = false :=
  ⟨C3_local_check_correct.1 demoCds demoCds,
   C3_local_check_correct.2 demoCds (by with_unfolding_all decide) 3 (by omega)⟩

/-- Witness for C4 at the demo pipeline run. -/
theorem C4_witness :
    (filter_and_rank_candidates false demoOracle demoOut).Pairwise
        (fun x y => rankedBefore x.cand y.cand) ∧
    (filter_and_rank_candidates false demoOracle demoOut).map (fun r => r.rank)
      = List.range' 1 (filter_and_rank_candidates false demoOracle demoOut).length :=
  C4_ranking_order demoCds demoOut false demoOracle (by with_unfolding_all decide)

/-- Witness for C5 at the first entry of the demo shortlist. -/
theorem C5_witness :
    (demoShort.headD defaultRanked).cand.local_check = PASS ∧
      (25 ≤ (demoShort.headD defaultRanked).cand.gc_percent ∧
        (demoShort.headD defaultRanked).cand.gc_percent ≤ 55) ∧
      (1 / 4 ≤ gcFraction (demoShort.headD defaultRanked).cand ∧
        gcFraction (demoShort.headD defaultRanked).cand ≤ 11 / 20) :=
  C5_shortlist_filtered demoCds demoOut false demoOracle (demoShort.headD defaultRanked)
    (by with_unfolding_all decide) (by with_unfolding_all decide)

/-- Witness for C6 (amended): with at most 50 candidates the hypothesis is
vacuous and the cap does not change the shortlist. -/
theorem C6_witness :
    filter_and_rank_candidates false demoOracle ((genCandidates demoCds).take 50)
      = filter_and_rank_candidates false demoOracle (genCandidates demoCds) :=
  C6_cap_amended false demoOracle (genCandidates demoCds) (by with_unfolding_all decide)

/-- Witness for C8 at the demo candidate. -/
theorem C8_witness : demoCand.antisense_seq = revCompSpec demoCand.sense_seq :=
  (C8_antisense_revcomp demoCds (by with_unfolding_all decide)).1 demoCand
    (by with_unfolding_all decide)

/-- Witness for C7: the demo run with every remote call force-failed. -/
theorem C7_witness :
    ((filter_and_rank_candidates true (fun _ => Except.error "transport failure") demoOut).headD
        defaultRanked).off_target = UNKNOWN ∧
    (filter_and_rank_candidates true (fun _ => Except.error "transport failure") demoOut).map
        (fun r => (r.cand, r.rank))
      = (filter_and_rank_candidates false demoOracle demoOut).map (fun r => (r.cand, r.rank)) :=
  ⟨((C7_remote_error_degrades demoOut "transport failure" demoOracle).1 _
      (by with_unfolding_all decide)).1,
   (C7_remote_error_degrades demoOut "transport failure" demoOracle).2⟩

end Pax8
